import Mathlib

/-!
Verification of the isocomp genomic-interval pipeline
(`src/isocomp/Coordinates/utils.py`).

The file embeds the two functions of the source module, `update_source`
(lines 14-32) and `create_comparison_windows` (lines 35-88), as Lean
definitions, together with a model of the interval clusterer.  The
clusterer itself is `pyranges.PyRanges.cluster`, an external library call
(line 83) whose code is not part of this repository; it is modelled from
the specification's sweep-line description (grouping key, sort by start,
running maximum end, sequential numbering).  Filesystem existence and GTF
parsing are external effects and enter as oracle parameters.
-/

/-- One annotation record, the row schema the spec names for the output
collection: Chromosome, Source, Feature, Start, End, Score, Strand, Frame,
transcript_id, gene_id.  Score and Frame are kept as raw strings as they
appear in a GTF. -/
structure GtfRecord where
  Chromosome : String
  Source : String
  Feature : String
  Start : Int
  End : Int
  Score : String
  Strand : String
  Frame : String
  transcript_id : String
  gene_id : String
deriving DecidableEq

/-- A `pyranges.PyRanges` value as the source manipulates it: a dynamic
column schema plus the records.  The schema is carried because
`update_source` (line 25) tests `'Source' not in gtf_pr.columns` at
run time. -/
structure PyRangesObj where
  columns : List String
  records : List GtfRecord
deriving DecidableEq

/-- The Python exception classes the source can raise: `IOError` (line 60),
`FileNotFoundError` (line 63), `AssertionError` (line 65), `KeyError`
(line 26), and `ValueError` (from the builtin `max` on line 86 when its
argument is empty). -/
inductive PyErr where
  | ioError (msg : String)
  | fileNotFoundError (msg : String)
  | assertionError (msg : String)
  | keyError (msg : String)
  | valueError (msg : String)
deriving DecidableEq

/-- The Python class name of a raised exception. -/
def pyErrKind : PyErr → String
  | PyErr.ioError _ => "IOError"
  | PyErr.fileNotFoundError _ => "FileNotFoundError"
  | PyErr.assertionError _ => "AssertionError"
  | PyErr.keyError _ => "KeyError"
  | PyErr.valueError _ => "ValueError"

/-- The Python class name of the exception raised by a computation, if it
raised one. -/
def raisedKind {α : Type} : Except PyErr α → Option String
  | Except.error e => some (pyErrKind e)
  | Except.ok _ => none

/-- A dynamically typed Python value, as far as the `isinstance(gtf_list,
list)` check on line 59 can distinguish it: a list of path strings or some
non-list value. -/
inductive PyVal where
  | pyList (xs : List String)
  | pyStr (s : String)
  | pyInt (n : Int)

/-- `isinstance(v, list)`. -/
def isList : PyVal → Bool
  | PyVal.pyList _ => true
  | _ => false

/-- Index of the last occurrence of a character in a list, as Python's
`str.rfind` computes it (`none` for `-1`). -/
def rfindIdx (c : Char) : List Char → Option Nat
  | [] => none
  | x :: xs =>
    match rfindIdx c xs with
    | some i => some (i + 1)
    | none => if x = c then some 0 else none

/-- `os.path.splitext` (posix): split at the last dot, unless that dot
belongs to the leading dots of the basename; the extension is empty when
there is no such dot. -/
def splitext (p : String) : String × String :=
  let cs := p.toList
  let sepIndex : Int :=
    match rfindIdx '/' cs with
    | some i => (i : Int)
    | none => -1
  match rfindIdx '.' cs with
  | none => (p, "")
  | some d =>
    if sepIndex < (d : Int) ∧
        ((List.range d).any
          (fun i => decide (sepIndex < (i : Int)) && decide (cs.getD i '.' ≠ '.')) = true) then
      (String.mk (cs.take d), String.mk (cs.drop d))
    else (p, "")

/-- `os.path.basename` (posix): everything after the last slash. -/
def basename (p : String) : String :=
  match rfindIdx '/' p.toList with
  | none => p
  | some i => String.mk (p.toList.drop (i + 1))

/-- The provenance label derived from a path on line 72:
`os.path.splitext(os.path.basename(x))[0]`. -/
def gtfLabel (x : String) : String := (splitext (basename x)).1

/-- Message of the `FileNotFoundError` raised on line 63. -/
def notFoundMsg (path : String) : String := path ++ " does not exist"

/-- Message of the `AssertionError` raised on lines 65-68. -/
def extMsg (path : String) : String :=
  "File extension of " ++ path ++
    " is not gtf. This must be a gtf file, and the way it is confirmed is by the extension. Either reformat to gtf or rename."

/-- Message of the `KeyError` raised on lines 26-27. -/
def keyErrMsg (new_source : String) : String :=
  "Column \"Source\" does not exist in " ++ new_source ++ ".gtf/gff"

/-- The per-path body of the validation loop on lines 61-68: existence is
tested first (`if not os.path.exists`), the extension only in the `elif`
branch. -/
def checkPath (fs : String → Bool) (path : String) : Option PyErr :=
  if fs path = false then some (PyErr.fileNotFoundError (notFoundMsg path))
  else if (splitext path).2 ≠ ".gtf" then some (PyErr.assertionError (extMsg path))
  else none

/-- The validation loop of lines 61-68: paths are examined in list order
and the first offending path raises. -/
def validatePaths (fs : String → Bool) : List String → Option PyErr
  | [] => none
  | p :: ps =>
    match checkPath fs p with
    | some e => some e
    | none => validatePaths fs ps

/-- Overwriting every record's Source field, the effect of the assignment
`gtf_pr.Source = new_source` on line 30. -/
def setSourceAll (o : PyRangesObj) (lbl : String) : PyRangesObj :=
  { o with records := o.records.map (fun r => { r with Source := lbl }) }

/-- `update_source` (lines 14-32), value view: check the schema for the
Source column, then overwrite the column. -/
def update_source (gtf_pr : PyRangesObj) (new_source : String) :
    Except PyErr PyRangesObj :=
  if "Source" ∈ gtf_pr.columns then Except.ok (setSourceAll gtf_pr new_source)
  else Except.error (PyErr.keyError (keyErrMsg new_source))

/-- A placeholder object for out-of-range heap lookups. -/
def emptyObj : PyRangesObj := ⟨[], []⟩

/-- `update_source` with Python reference semantics made explicit: the
store is the list of live `PyRanges` objects and `i` the reference passed
in.  Line 30 mutates the referenced object in place and line 32 returns
the same reference; when the column check of line 25 fails the store is
left untouched (the check precedes the mutation). -/
def update_source_heap (st : List PyRangesObj) (i : Nat) (lbl : String) :
    List PyRangesObj × Except PyErr Nat :=
  if "Source" ∈ (st.getD i emptyObj).columns then
    (st.set i (setSourceAll (st.getD i emptyObj) lbl), Except.ok i)
  else (st, Except.error (PyErr.keyError (keyErrMsg lbl)))

/-- The list comprehension of lines 71-73: read each path and retag its
Source column with the label derived from the file name; evaluation is
sequential and the first raised error aborts. -/
def mapUpdate (read_gtf : String → PyRangesObj) :
    List String → Except PyErr (List PyRangesObj)
  | [] => Except.ok []
  | x :: xs =>
    match update_source (read_gtf x) (gtfLabel x) with
    | Except.error e => Except.error e
    | Except.ok o =>
      match mapUpdate read_gtf xs with
      | Except.error e => Except.error e
      | Except.ok os => Except.ok (o :: os)

/-- Modelled from the spec: the clustering options recognised by the
interval clusterer — the strand-awareness flag and the gap tolerance
(pyranges' `strand` and `slack` keyword arguments forwarded on line 83 are
not part of this repository's code). -/
structure ClusterConfig where
  strand_aware : Bool
  gap_tolerance : Nat

/-- Modelled from the spec: the grouping key of the clusterer, the
chromosome, and additionally the strand when the strand option is
enabled. -/
def groupKey (cfg : ClusterConfig) (r : GtfRecord) : String × String :=
  (r.Chromosome, if cfg.strand_aware then r.Strand else "")

/-- Two ranges overlap or touch within a gap tolerance. -/
def rangeOverlap (gap : Int) (a b : GtfRecord) : Prop :=
  a.Start ≤ b.End + gap ∧ b.Start ≤ a.End + gap

instance (gap : Int) (a b : GtfRecord) : Decidable (rangeOverlap gap a b) :=
  inferInstanceAs (Decidable (_ ∧ _))

/-- Two records overlap in the clusterer's sense: same grouping key and
ranges within the gap tolerance of one another. -/
def overlaps (cfg : ClusterConfig) (a b : GtfRecord) : Prop :=
  groupKey cfg a = groupKey cfg b ∧
    rangeOverlap (cfg.gap_tolerance : Int) a b

/-- Chain connectivity through members of a list under plain range
overlap. -/
def chainIn (gap : Int) (l : List GtfRecord) : GtfRecord → GtfRecord → Prop :=
  Relation.ReflTransGen (fun x y => x ∈ l ∧ y ∈ l ∧ rangeOverlap gap x y)

/-- The spec's transitive closure of `overlaps`: connectivity by a chain of
pairwise overlapping intervals drawn from the collection. -/
def overlapChain (cfg : ClusterConfig) (l : List GtfRecord) :
    GtfRecord → GtfRecord → Prop :=
  Relation.ReflTransGen (fun x y => x ∈ l ∧ y ∈ l ∧ overlaps cfg x y)

/-- Modelled from the spec: the sort order inside a group, start coordinate
ascending with ties broken by end coordinate ascending. -/
def lexLE (a b : GtfRecord) : Prop :=
  a.Start < b.Start ∨ (a.Start = b.Start ∧ a.End ≤ b.End)

instance decLexLE : DecidableRel lexLE := fun a b =>
  if h1 : a.Start < b.Start then isTrue (Or.inl h1)
  else
    if h2 : a.Start = b.Start then
      if h3 : a.End ≤ b.End then isTrue (Or.inr ⟨h2, h3⟩)
      else isFalse (fun h => h.elim (fun h' => absurd h' h1) (fun h' => absurd h'.2 h3))
    else isFalse (fun h => h.elim (fun h' => absurd h' h1) (fun h' => absurd h'.1 h2))

instance : IsTotal GtfRecord lexLE :=
  ⟨by intro a b; unfold lexLE; omega⟩

instance : IsTrans GtfRecord lexLE :=
  ⟨by intro a b c hab hbc; unfold lexLE at hab hbc ⊢; omega⟩

/-- Modelled from the spec: the sweep over one sorted group while a cluster
numbered `c` is open with running maximum end `runMax`.  A record whose
start exceeds `runMax + gap` opens a new cluster; otherwise it joins the
current cluster and the running maximum is updated.  Also returns the
number of the last cluster opened. -/
def sweepAux (gap : Int) : List GtfRecord → Nat → Int → List (GtfRecord × Nat) × Nat
  | [], c, _ => ([], c)
  | r :: rs, c, runMax =>
    if r.Start ≤ runMax + gap then
      ((r, c) :: (sweepAux gap rs c (max runMax r.End)).1,
        (sweepAux gap rs c (max runMax r.End)).2)
    else
      ((r, c + 1) :: (sweepAux gap rs (c + 1) r.End).1,
        (sweepAux gap rs (c + 1) r.End).2)

/-- Modelled from the spec: sweep one group, whose first record always
opens a fresh cluster numbered `c + 1`. -/
def sweepGroup (gap : Int) (g : List GtfRecord) (c : Nat) :
    List (GtfRecord × Nat) × Nat :=
  match g with
  | [] => ([], c)
  | r :: rs =>
    ((r, c + 1) :: (sweepAux gap rs (c + 1) r.End).1,
      (sweepAux gap rs (c + 1) r.End).2)

/-- Modelled from the spec: sweep the groups one after the other,
numbering continuing across groups. -/
def clusterGroups (gap : Int) : List (List GtfRecord) → Nat → List (GtfRecord × Nat) × Nat
  | [], c => ([], c)
  | g :: gs, c =>
    ((sweepGroup gap g c).1 ++ (clusterGroups gap gs (sweepGroup gap g c).2).1,
      (clusterGroups gap gs (sweepGroup gap g c).2).2)

/-- The keys of a list in order of first appearance (deterministic
group-visitation order). -/
def firstSeen {α : Type} [DecidableEq α] : List α → List α
  | [] => []
  | x :: xs => x :: (firstSeen xs).filter (fun y => decide (y ≠ x))

/-- Modelled from the spec: the sorted group of records carrying a given
grouping key. -/
def mkGroup (cfg : ClusterConfig) (recs : List GtfRecord) (k : String × String) :
    List GtfRecord :=
  List.insertionSort lexLE (recs.filter (fun r => decide (groupKey cfg r = k)))

/-- Modelled from the spec: partition the collection into per-key groups,
keys visited in order of first appearance. -/
def groupsOf (cfg : ClusterConfig) (recs : List GtfRecord) : List (List GtfRecord) :=
  (firstSeen (recs.map (groupKey cfg))).map (mkGroup cfg recs)

/-- Modelled from the spec: the interval clusterer called on line 83
(`concat_ranges.cluster(**kwargs)`, external pyranges code): partition by
grouping key, sort each group, sweep, and number clusters sequentially
starting at 1 across the groups. -/
def clusterRanges (cfg : ClusterConfig) (recs : List GtfRecord) :
    List (GtfRecord × Nat) :=
  (clusterGroups (cfg.gap_tolerance : Int) (groupsOf cfg recs) 0).1

/-- Python's builtin `max` over a sequence of cluster numbers, as invoked
on line 86 inside the `logging.debug` argument (which is evaluated
eagerly): it raises `ValueError` on an empty sequence. -/
def pymax : List Nat → Except PyErr Nat
  | [] => Except.error (PyErr.valueError "max() arg is an empty sequence")
  | x :: xs => Except.ok (xs.foldl Nat.max x)

/-- `create_comparison_windows` (lines 35-88).  `fs` is the
`os.path.exists` oracle and `read_gtf` the `pr.read_gtf` parser oracle;
`cfg` stands for the keyword arguments forwarded to `cluster`.  The
stages: type check (line 59), path validation (lines 61-68), per-file read
and retag (lines 71-73), concatenation (line 76), the hardcoded
`Feature == 'transcript'` filter (line 82), clustering (line 83), and the
debug line computing `max(clustered_ranges.Cluster)` (lines 85-86). -/
def create_comparison_windows (fs : String → Bool) (read_gtf : String → PyRangesObj)
    (gtf_list : PyVal) (cfg : ClusterConfig) :
    Except PyErr (List (GtfRecord × Nat)) :=
  match gtf_list with
  | PyVal.pyList xs =>
    match validatePaths fs xs with
    | some e => Except.error e
    | none =>
      match mapUpdate read_gtf xs with
      | Except.error e => Except.error e
      | Except.ok objs =>
        match pymax ((clusterRanges cfg (((objs.map PyRangesObj.records).flatten).filter
            (fun r => decide (r.Feature = "transcript")))).map Prod.snd) with
        | Except.error e => Except.error e
        | Except.ok _ =>
          Except.ok (clusterRanges cfg (((objs.map PyRangesObj.records).flatten).filter
            (fun r => decide (r.Feature = "transcript"))))
  | _ => Except.error (PyErr.ioError "pyranges_list must be type list")

/-- The full GTF column schema as `pr.read_gtf` yields it. -/
def gtfCols : List String :=
  ["Chromosome", "Source", "Feature", "Start", "End", "Score", "Strand", "Frame",
    "transcript_id", "gene_id"]

/-- Concrete transcript chr1:100-200, for witnesses. -/
def recA : GtfRecord :=
  ⟨"chr1", "old", "transcript", 100, 200, ".", "+", ".", "tA", "gA"⟩

/-- Concrete transcript chr1:150-300, overlapping `recA`. -/
def recB : GtfRecord :=
  ⟨"chr1", "old", "transcript", 150, 300, ".", "+", ".", "tB", "gB"⟩

/-- A malformed transcript with Start greater than End. -/
def recBad : GtfRecord :=
  ⟨"chr1", "old", "transcript", 50, 3, ".", "+", ".", "tX", "gX"⟩

/-- The malformed transcript after tagging with the label of `a.gtf`. -/
def recBadTagged : GtfRecord := { recBad with Source := "a" }

/-- A record of a non-transcript feature type. -/
def recGene : GtfRecord :=
  ⟨"chr1", "old", "gene", 0, 10, ".", "+", ".", "tG", "gG"⟩

/-- A transcript accompanying `recGene`. -/
def recT : GtfRecord :=
  ⟨"chr1", "old", "transcript", 0, 10, ".", "+", ".", "tT", "gT"⟩

/-- `recT` after tagging with the label of `g.gtf`. -/
def recTTagged : GtfRecord := { recT with Source := "g" }

/-- A filesystem oracle on which every path exists. -/
def fsAll : String → Bool := fun _ => true

/-- A filesystem oracle on which only `ok.gtf` exists. -/
def fsOnlyOk : String → Bool := fun s => s == "ok.gtf"

/-- A parser oracle yielding a single well-formed transcript. -/
def parseDemo : String → PyRangesObj := fun _ => ⟨gtfCols, [recA]⟩

/-- A parser oracle yielding a malformed transcript. -/
def parseBad : String → PyRangesObj := fun _ => ⟨gtfCols, [recBad]⟩

/-- A parser oracle yielding a gene record and a transcript record. -/
def parseMixed : String → PyRangesObj := fun _ => ⟨gtfCols, [recGene, recT]⟩

/-- A parser oracle yielding only a non-transcript record. -/
def parseGeneOnly : String → PyRangesObj := fun _ => ⟨gtfCols, [recGene]⟩

/-- An object whose schema has a Source column. -/
def objWithSource : PyRangesObj := ⟨gtfCols, [recA]⟩

/-- An object whose schema lacks the Source column. -/
def objNoSource : PyRangesObj := ⟨["Chromosome"], [recA]⟩

/-- Two same-chromosome transcripts separated by a gap of 40. -/
def demoGap : List GtfRecord :=
  [⟨"chr1", "s", "transcript", 0, 10, ".", "+", ".", "t1", "g1"⟩,
   ⟨"chr1", "s", "transcript", 50, 60, ".", "+", ".", "t2", "g2"⟩]

/-- Two overlapping same-chromosome transcripts on opposite strands. -/
def demoStrand : List GtfRecord :=
  [⟨"chr1", "s", "transcript", 0, 10, ".", "+", ".", "t1", "g1"⟩,
   ⟨"chr1", "s", "transcript", 5, 20, ".", "-", ".", "t2", "g2"⟩]

/-! ## Theorems -/

/-- C3: tagging a collection whose schema has the Source column succeeds and
sets every record's provenance to the label; a collection lacking the column
raises a KeyError whose message names the intended label, and since the
schema check precedes the mutation, the caller-visible store is left
unmodified on error. -/
theorem update_source_spec :
    (∀ o lbl, "Source" ∈ o.columns →
      update_source o lbl = Except.ok (setSourceAll o lbl)) ∧
    (∀ o lbl r, r ∈ (setSourceAll o lbl).records → r.Source = lbl) ∧
    (∀ o lbl, "Source" ∉ o.columns →
      update_source o lbl = Except.error (PyErr.keyError
        ("Column \"Source\" does not exist in " ++ lbl ++ ".gtf/gff"))) ∧
    (∀ st i lbl, "Source" ∉ (st.getD i emptyObj).columns →
      (update_source_heap st i lbl).1 = st) := by
  refine ⟨?_, ?_, ?_, ?_⟩
  · intro o lbl h; simp [update_source, h]
  · intro o lbl r hr
    simp only [setSourceAll, List.mem_map] at hr
    obtain ⟨s, _, rfl⟩ := hr
    rfl
  · intro o lbl h; simp [update_source, h, keyErrMsg]
  · intro st i lbl h
    unfold update_source_heap
    rw [if_neg h]

/-- Witness for C3 at concrete collections. -/
theorem update_source_spec_witness :
    update_source objWithSource "A" = Except.ok (setSourceAll objWithSource "A") ∧
    update_source objNoSource "B" = Except.error (PyErr.keyError
      ("Column \"Source\" does not exist in " ++ "B" ++ ".gtf/gff")) ∧
    (update_source_heap [objNoSource] 0 "B").1 = [objNoSource] :=
  ⟨update_source_spec.1 objWithSource "A" (by decide),
   update_source_spec.2.2.1 objNoSource "B" (by decide),
   update_source_spec.2.2.2 [objNoSource] 0 "B" (by decide)⟩

/-- C9 counterexample: the Source Tagger does not leave the caller's
collection unchanged — after `update_source` returns, the store slot the
caller passed in has been overwritten in place, and the returned reference
aliases the input. -/
theorem update_source_not_pure_cex :
    (update_source_heap [objWithSource] 0 "newlbl").1 ≠ [objWithSource] ∧
    (update_source_heap [objWithSource] 0 "newlbl").2 = Except.ok 0 := by
  constructor
  · decide
  · rfl

/-- C9 amended: when the Source column exists, the tagging stage mutates
the referenced collection in place (the store slot is overwritten) and
returns the very reference it received, rather than building a new
collection. -/
theorem update_source_mutates_in_place (st : List PyRangesObj) (i : Nat)
    (lbl : String) (h : "Source" ∈ (st.getD i emptyObj).columns) :
    update_source_heap st i lbl =
      (st.set i (setSourceAll (st.getD i emptyObj) lbl), Except.ok i) := by
  unfold update_source_heap
  rw [if_pos h]

/-- Witness for the amended C9 at a concrete store. -/
theorem update_source_mutates_in_place_witness :
    update_source_heap [objWithSource] 0 "B" =
      ([objWithSource].set 0 (setSourceAll ([objWithSource].getD 0 emptyObj) "B"),
        Except.ok 0) :=
  update_source_mutates_in_place [objWithSource] 0 "B" (by decide)

/-- C5 counterexample: at a concrete non-list input the pipeline raises
IOError (the class raised on line 60), not TypeError. -/
theorem nonlist_raises_ioerror_cex :
    create_comparison_windows fsAll parseDemo (PyVal.pyStr "oops") ⟨false, 0⟩ =
      Except.error (PyErr.ioError "pyranges_list must be type list") ∧
    raisedKind (create_comparison_windows fsAll parseDemo (PyVal.pyStr "oops")
        ⟨false, 0⟩) ≠ some "TypeError" := by
  constructor
  · rfl
  · decide

/-- C5 amended: for every input value that is not a list the entry check
raises IOError (not TypeError) with the message of line 60. -/
theorem nonlist_input_raises_ioerror (fs : String → Bool)
    (read_gtf : String → PyRangesObj) (cfg : ClusterConfig) (v : PyVal)
    (h : isList v = false) :
    create_comparison_windows fs read_gtf v cfg =
      Except.error (PyErr.ioError "pyranges_list must be type list") := by
  cases v with
  | pyList xs => simp [isList] at h
  | pyStr s => rfl
  | pyInt n => rfl

/-- Witness for the amended C5. -/
theorem nonlist_input_raises_ioerror_witness :
    create_comparison_windows fsAll parseDemo (PyVal.pyInt 7) ⟨false, 0⟩ =
      Except.error (PyErr.ioError "pyranges_list must be type list") :=
  nonlist_input_raises_ioerror fsAll parseDemo ⟨false, 0⟩ (PyVal.pyInt 7) rfl

/-- C6: an existing input path whose extension is not exactly `.gtf`
(case-sensitive `os.path.splitext` comparison) makes the validator raise
the wrong-extension error — realised in the code as an AssertionError —
whose message names that file, whatever the parser would have returned for
its content. -/
theorem wrong_extension_raises (fs : String → Bool)
    (read_gtf : String → PyRangesObj) (cfg : ClusterConfig) (p : String)
    (hex : fs p = true) (hext : (splitext p).2 ≠ ".gtf") :
    create_comparison_windows fs read_gtf (PyVal.pyList [p]) cfg =
      Except.error (PyErr.assertionError (extMsg p)) := by
  simp [create_comparison_windows, validatePaths, checkPath, hex, hext]

/-- Witness for C6: `sample.txt` exists on the oracle, yet the extension
error naming it is raised. -/
theorem wrong_extension_raises_witness :
    create_comparison_windows fsAll parseDemo (PyVal.pyList ["sample.txt"])
        ⟨false, 0⟩ =
      Except.error (PyErr.assertionError (extMsg "sample.txt")) :=
  wrong_extension_raises fsAll parseDemo ⟨false, 0⟩ "sample.txt" rfl (by decide)

/-- C10: existence is checked before the extension — a missing path raises
FileNotFoundError regardless of its extension — paths are examined in list
order so the first offending path determines the raised error, and the
pipeline propagates the validator's first error unchanged. -/
theorem existence_checked_before_extension :
    (∀ fs p, fs p = false →
      checkPath fs p = some (PyErr.fileNotFoundError (notFoundMsg p))) ∧
    (∀ fs pre p rest e, (∀ q, q ∈ pre → checkPath fs q = none) →
      checkPath fs p = some e →
      validatePaths fs (pre ++ p :: rest) = some e) ∧
    (∀ fs read_gtf cfg xs e, validatePaths fs xs = some e →
      create_comparison_windows fs read_gtf (PyVal.pyList xs) cfg =
        Except.error e) := by
  refine ⟨?_, ?_, ?_⟩
  · intro fs p h; simp [checkPath, h]
  · intro fs pre p rest e hpre hp
    induction pre with
    | nil => simp [validatePaths, hp]
    | cons q qs ih =>
      have hq : checkPath fs q = none := hpre q (List.mem_cons_self q qs)
      simp only [List.cons_append, validatePaths, hq]
      exact ih (fun x hx => hpre x (List.mem_cons_of_mem q hx))
  · intro fs read_gtf cfg xs e h
    simp [create_comparison_windows, h]

/-- Witness for C10: a path that is both missing and wrongly extensioned,
listed after one valid path, raises the not-found error (never the format
error), and the pipeline surfaces exactly it. -/
theorem existence_checked_before_extension_witness :
    checkPath fsOnlyOk "missing.txt" =
      some (PyErr.fileNotFoundError (notFoundMsg "missing.txt")) ∧
    validatePaths fsOnlyOk ["ok.gtf", "missing.txt"] =
      some (PyErr.fileNotFoundError (notFoundMsg "missing.txt")) ∧
    create_comparison_windows fsOnlyOk parseDemo
        (PyVal.pyList ["ok.gtf", "missing.txt"]) ⟨false, 0⟩ =
      Except.error (PyErr.fileNotFoundError (notFoundMsg "missing.txt")) := by
  refine ⟨existence_checked_before_extension.1 fsOnlyOk "missing.txt" (by decide),
    ?_, ?_⟩
  · exact existence_checked_before_extension.2.1 fsOnlyOk ["ok.gtf"] "missing.txt"
      [] _ (by intro q hq; simp at hq; subst hq; decide)
      (existence_checked_before_extension.1 fsOnlyOk "missing.txt" (by decide))
  · exact existence_checked_before_extension.2.2 fsOnlyOk parseDemo ⟨false, 0⟩ _ _
      (existence_checked_before_extension.2.1 fsOnlyOk ["ok.gtf"] "missing.txt"
        [] _ (by intro q hq; simp at hq; subst hq; decide)
        (existence_checked_before_extension.1 fsOnlyOk "missing.txt" (by decide)))

/-- C4: contrary to the claim, an empty input does not propagate to an
empty output.  The cluster stage itself does map the empty collection to
the empty collection, but the debug line 86 evaluates
`max(clustered_ranges.Cluster)` on that empty sequence, so the pipeline
raises ValueError — both for an empty gtf list and for inputs left empty
by the feature filter. -/
theorem empty_input_pipeline_raises :
    clusterRanges ⟨false, 0⟩ [] = [] ∧
    create_comparison_windows fsAll parseDemo (PyVal.pyList []) ⟨false, 0⟩ =
      Except.error (PyErr.valueError "max() arg is an empty sequence") ∧
    create_comparison_windows fsAll parseGeneOnly (PyVal.pyList ["a.gtf"])
        ⟨false, 0⟩ =
      Except.error (PyErr.valueError "max() arg is an empty sequence") :=
  ⟨rfl, rfl, rfl⟩

/-- C7 counterexample: a collection containing a malformed interval (Start
greater than End) is not rejected — no validation error is raised before
the sweep; the pipeline returns a clustered result containing it. -/
theorem malformed_not_rejected_cex :
    create_comparison_windows fsAll parseBad (PyVal.pyList ["a.gtf"]) ⟨false, 0⟩ =
      Except.ok [(recBadTagged, 1)] ∧
    recBadTagged.End < recBadTagged.Start := by
  constructor
  · rfl
  · decide

/-- C8 counterexample: the feature-type filter is hardcoded to
'transcript' — the non-transcript record is dropped whatever values the
caller supplies for every exposed clustering option; no option selects the
filtered feature type. -/
theorem feature_filter_not_configurable_cex :
    create_comparison_windows fsAll parseMixed (PyVal.pyList ["g.gtf"]) ⟨false, 0⟩ =
      Except.ok [(recTTagged, 1)] ∧
    create_comparison_windows fsAll parseMixed (PyVal.pyList ["g.gtf"]) ⟨true, 999⟩ =
      Except.ok [(recTTagged, 1)] :=
  ⟨rfl, rfl⟩

/-! ### Structural lemmas about the sweep-line clusterer -/

theorem rangeOverlap_symm {gap : Int} {a b : GtfRecord}
    (h : rangeOverlap gap a b) : rangeOverlap gap b a :=
  ⟨h.2, h.1⟩

theorem chainIn_symm {gap : Int} {G : List GtfRecord} {a b : GtfRecord}
    (h : chainIn gap G a b) : chainIn gap G b a := by
  induction h with
  | refl => exact Relation.ReflTransGen.refl
  | tail h1 h2 ih =>
    exact Relation.ReflTransGen.head ⟨h2.2.1, h2.1, rangeOverlap_symm h2.2.2⟩ ih

theorem sweepAux_fst (gap : Int) :
    ∀ (rs : List GtfRecord) (c : Nat) (runMax : Int),
      (sweepAux gap rs c runMax).1.map Prod.fst = rs := by
  intro rs
  induction rs with
  | nil => intro c runMax; simp [sweepAux]
  | cons r rs ih =>
    intro c runMax
    by_cases hj : r.Start ≤ runMax + gap
    · simp [sweepAux, hj, ih]
    · simp [sweepAux, hj, ih]

theorem sweepAux_counter_mono (gap : Int) :
    ∀ (rs : List GtfRecord) (c : Nat) (runMax : Int),
      c ≤ (sweepAux gap rs c runMax).2 := by
  intro rs
  induction rs with
  | nil => intro c runMax; simp [sweepAux]
  | cons r rs ih =>
    intro c runMax
    by_cases hj : r.Start ≤ runMax + gap
    · simpa [sweepAux, hj] using ih c (max runMax r.End)
    · have h := ih (c + 1) r.End
      simp only [sweepAux, if_neg hj]
      omega

theorem sweepAux_bounds (gap : Int) :
    ∀ (rs : List GtfRecord) (c : Nat) (runMax : Int) (a : GtfRecord) (n : Nat),
      (a, n) ∈ (sweepAux gap rs c runMax).1 →
      c ≤ n ∧ n ≤ (sweepAux gap rs c runMax).2 := by
  intro rs
  induction rs with
  | nil => intro c runMax a n h; simp [sweepAux] at h
  | cons r rs ih =>
    intro c runMax a n h
    by_cases hj : r.Start ≤ runMax + gap
    · simp only [sweepAux, if_pos hj, List.mem_cons, Prod.mk.injEq] at h ⊢
      rcases h with ⟨rfl, rfl⟩ | h
      · exact ⟨le_refl _, sweepAux_counter_mono gap rs _ _⟩
      · exact ih c (max runMax r.End) a n h
    · simp only [sweepAux, if_neg hj, List.mem_cons, Prod.mk.injEq] at h ⊢
      rcases h with ⟨rfl, rfl⟩ | h
      · exact ⟨Nat.le_succ c, sweepAux_counter_mono gap rs _ _⟩
      · have h2 := ih (c + 1) r.End a n h
        exact ⟨le_trans (Nat.le_succ c) h2.1, h2.2⟩

theorem sweepGroup_fst (gap : Int) (g : List GtfRecord) (c : Nat) :
    (sweepGroup gap g c).1.map Prod.fst = g := by
  cases g with
  | nil => rfl
  | cons r rs => simp [sweepGroup, sweepAux_fst]

theorem sweepGroup_counter_mono (gap : Int) (g : List GtfRecord) (c : Nat) :
    c ≤ (sweepGroup gap g c).2 := by
  cases g with
  | nil => exact le_refl c
  | cons r rs =>
    have h := sweepAux_counter_mono gap rs (c + 1) r.End
    simp only [sweepGroup]
    omega

theorem sweepGroup_bounds (gap : Int) (g : List GtfRecord) (c : Nat)
    (a : GtfRecord) (n : Nat) (h : (a, n) ∈ (sweepGroup gap g c).1) :
    c < n ∧ n ≤ (sweepGroup gap g c).2 := by
  cases g with
  | nil => simp [sweepGroup] at h
  | cons r rs =>
    simp only [sweepGroup, List.mem_cons, Prod.mk.injEq] at h ⊢
    rcases h with ⟨rfl, rfl⟩ | h
    · exact ⟨Nat.lt_succ_self c, sweepAux_counter_mono gap rs _ _⟩
    · have h2 := sweepAux_bounds gap rs (c + 1) r.End a n h
      exact ⟨lt_of_lt_of_le (Nat.lt_succ_self c) h2.1, h2.2⟩

theorem clusterGroups_fst (gap : Int) :
    ∀ (gs : List (List GtfRecord)) (c : Nat),
      (clusterGroups gap gs c).1.map Prod.fst = gs.flatten := by
  intro gs
  induction gs with
  | nil => intro c; rfl
  | cons g gs ih =>
    intro c
    simp [clusterGroups, List.map_append, sweepGroup_fst, ih]

theorem clusterGroups_counter_mono (gap : Int) :
    ∀ (gs : List (List GtfRecord)) (c : Nat),
      c ≤ (clusterGroups gap gs c).2 := by
  intro gs
  induction gs with
  | nil => intro c; exact le_refl c
  | cons g gs ih =>
    intro c
    have h1 := sweepGroup_counter_mono gap g c
    have h2 := ih (sweepGroup gap g c).2
    simp only [clusterGroups]
    omega

theorem clusterGroups_bounds (gap : Int) :
    ∀ (gs : List (List GtfRecord)) (c : Nat) (a : GtfRecord) (n : Nat),
      (a, n) ∈ (clusterGroups gap gs c).1 →
      c < n ∧ n ≤ (clusterGroups gap gs c).2 := by
  intro gs
  induction gs with
  | nil => intro c a n h; simp [clusterGroups] at h
  | cons g gs ih =>
    intro c a n h
    simp only [clusterGroups, List.mem_append] at h ⊢
    rcases h with h | h
    · have h2 := sweepGroup_bounds gap g c a n h
      exact ⟨h2.1, le_trans h2.2 (clusterGroups_counter_mono gap gs (sweepGroup gap g c).2)⟩
    · have h2 := ih (sweepGroup gap g c).2 a n h
      exact ⟨lt_of_le_of_lt (sweepGroup_counter_mono gap g c) h2.1, h2.2⟩

theorem mem_of_mem_sweepAux {gap : Int} {rs : List GtfRecord} {c : Nat}
    {runMax : Int} {b : GtfRecord} {m : Nat}
    (h : (b, m) ∈ (sweepAux gap rs c runMax).1) : b ∈ rs := by
  have h2 := List.mem_map_of_mem Prod.fst h
  rwa [sweepAux_fst] at h2

/-- The sweep invariant: while cluster `c` is open with running maximum
`runMax`, witnessed by the already-emitted records `prev` (mutually
chain-connected, lying before the rest, with `runMax` the maximum of their
End values), the emitted labels are sound and complete for chain
connectivity: a record labelled `c` is connected to all of `prev`; records
with equal labels are connected; a later record overlapping one of `prev`
gets label `c`; and overlapping emitted records get equal labels. -/
theorem sweepAux_spec (gap : Int) (hgap : 0 ≤ gap) (G : List GtfRecord) :
    ∀ (rs : List GtfRecord) (c : Nat) (runMax : Int) (prev : List GtfRecord),
      (∀ r, r ∈ rs → r.Start ≤ r.End) →
      List.Pairwise (fun a b => a.Start ≤ b.Start) rs →
      (∀ p, p ∈ prev → ∀ r, r ∈ rs → p.Start ≤ r.Start) →
      (∀ p, p ∈ prev → p ∈ G) →
      (∀ r, r ∈ rs → r ∈ G) →
      (∃ p, p ∈ prev ∧ p.End = runMax) →
      (∀ p, p ∈ prev → p.End ≤ runMax) →
      (∀ p, p ∈ prev → ∀ q, q ∈ prev → chainIn gap G p q) →
      (∀ a n, (a, n) ∈ (sweepAux gap rs c runMax).1 → n = c →
        ∀ p, p ∈ prev → chainIn gap G a p) ∧
      (∀ a n b m, (a, n) ∈ (sweepAux gap rs c runMax).1 →
        (b, m) ∈ (sweepAux gap rs c runMax).1 → n = m → chainIn gap G a b) ∧
      (∀ b m, (b, m) ∈ (sweepAux gap rs c runMax).1 →
        ∀ p, p ∈ prev → rangeOverlap gap p b → m = c) ∧
      (∀ a n b m, (a, n) ∈ (sweepAux gap rs c runMax).1 →
        (b, m) ∈ (sweepAux gap rs c runMax).1 → rangeOverlap gap a b → n = m) := by
  intro rs
  induction rs with
  | nil =>
    intro c runMax prev _ _ _ _ _ _ _ _
    refine ⟨?_, ?_, ?_, ?_⟩
    · intro a n h; simp [sweepAux] at h
    · intro a n b m h; simp [sweepAux] at h
    · intro b m h; simp [sweepAux] at h
    · intro a n b m h; simp [sweepAux] at h
  | cons r rs ih =>
    intro c runMax prev hvalid hsorted hprevle hprevG hrsG hmaxmem hmaxub hprevconn
    obtain ⟨hsorthead, hsorttail⟩ := List.pairwise_cons.mp hsorted
    have hrG : r ∈ G := hrsG r (List.mem_cons_self r rs)
    by_cases hj : r.Start ≤ runMax + gap
    · -- the record joins the open cluster
      obtain ⟨p0, hp0prev, hp0end⟩ := hmaxmem
      have hstep : rangeOverlap gap p0 r := by
        constructor
        · have h1 : p0.Start ≤ r.Start := hprevle p0 hp0prev r (List.mem_cons_self r rs)
          have h2 : r.Start ≤ r.End := hvalid r (List.mem_cons_self r rs)
          omega
        · omega
      have hconn_p0r : chainIn gap G p0 r :=
        Relation.ReflTransGen.single ⟨hprevG p0 hp0prev, hrG, hstep⟩
      have hconn_rp : ∀ p, p ∈ prev → chainIn gap G r p :=
        fun p hp =>
          Relation.ReflTransGen.trans (chainIn_symm hconn_p0r)
            (hprevconn p0 hp0prev p hp)
      have hIH := ih c (max runMax r.End) (r :: prev)
        (fun s hs => hvalid s (List.mem_cons_of_mem r hs))
        hsorttail
        (fun p hp s hs => by
          rcases List.mem_cons.mp hp with h | hp2
          · subst h; exact hsorthead s hs
          · exact hprevle p hp2 s (List.mem_cons_of_mem r hs))
        (fun p hp => by
          rcases List.mem_cons.mp hp with h | hp2
          · subst h; exact hrG
          · exact hprevG p hp2)
        (fun s hs => hrsG s (List.mem_cons_of_mem r hs))
        (by
          rcases le_total runMax r.End with h | h
          · exact ⟨r, List.mem_cons_self r prev, (max_eq_right h).symm⟩
          · exact ⟨p0, List.mem_cons_of_mem r hp0prev, by rw [hp0end, max_eq_left h]⟩)
        (fun p hp => by
          rcases List.mem_cons.mp hp with h | hp2
          · subst h; exact le_max_right runMax p.End
          · exact le_trans (hmaxub p hp2) (le_max_left runMax r.End))
        (fun p hp q hq => by
          rcases List.mem_cons.mp hp with h | hp2 <;>
            rcases List.mem_cons.mp hq with h2 | hq2
          · subst h; subst h2; exact Relation.ReflTransGen.refl
          · subst h; exact hconn_rp q hq2
          · subst h2; exact chainIn_symm (hconn_rp p hp2)
          · exact hprevconn p hp2 q hq2)
      obtain ⟨ih2, ih3, ih4, ih5⟩ := hIH
      refine ⟨?_, ?_, ?_, ?_⟩
      · intro a n ha hnc p hp
        simp only [sweepAux, if_pos hj, List.mem_cons, Prod.mk.injEq] at ha
        rcases ha with ⟨ha1, ha2⟩ | ha
        · subst ha1; exact hconn_rp p hp
        · exact ih2 a n ha hnc p (List.mem_cons_of_mem r hp)
      · intro a n b m ha hb hnm
        simp only [sweepAux, if_pos hj, List.mem_cons, Prod.mk.injEq] at ha hb
        rcases ha with ⟨ha1, ha2⟩ | ha <;> rcases hb with ⟨hb1, hb2⟩ | hb
        · subst ha1; subst hb1; exact Relation.ReflTransGen.refl
        · subst ha1
          exact chainIn_symm
            (ih2 b m hb (by omega) a (List.mem_cons_self a prev))
        · subst hb1
          exact ih2 a n ha (by omega) b (List.mem_cons_self b prev)
        · exact ih3 a n b m ha hb hnm
      · intro b m hb p hp hov
        simp only [sweepAux, if_pos hj, List.mem_cons, Prod.mk.injEq] at hb
        rcases hb with ⟨hb1, hb2⟩ | hb
        · exact hb2
        · exact ih4 b m hb p (List.mem_cons_of_mem r hp) hov
      · intro a n b m ha hb hov
        simp only [sweepAux, if_pos hj, List.mem_cons, Prod.mk.injEq] at ha hb
        rcases ha with ⟨ha1, ha2⟩ | ha <;> rcases hb with ⟨hb1, hb2⟩ | hb
        · omega
        · subst ha1
          have := ih4 b m hb a (List.mem_cons_self a prev) hov
          omega
        · subst hb1
          have := ih4 a n ha b (List.mem_cons_self b prev) (rangeOverlap_symm hov)
          omega
        · exact ih5 a n b m ha hb hov
    · -- the record opens a new cluster
      have hIH := ih (c + 1) r.End [r]
        (fun s hs => hvalid s (List.mem_cons_of_mem r hs))
        hsorttail
        (fun p hp s hs => by
          rw [List.mem_singleton] at hp; subst hp; exact hsorthead s hs)
        (fun p hp => by rw [List.mem_singleton] at hp; subst hp; exact hrG)
        (fun s hs => hrsG s (List.mem_cons_of_mem r hs))
        ⟨r, List.mem_singleton_self r, rfl⟩
        (fun p hp => by rw [List.mem_singleton] at hp; subst hp; exact le_refl _)
        (fun p hp q hq => by
          rw [List.mem_singleton] at hp hq; subst hp; subst hq
          exact Relation.ReflTransGen.refl)
      obtain ⟨ih2, ih3, ih4, ih5⟩ := hIH
      refine ⟨?_, ?_, ?_, ?_⟩
      · intro a n ha hnc p hp
        simp only [sweepAux, if_neg hj, List.mem_cons, Prod.mk.injEq] at ha
        rcases ha with ⟨ha1, ha2⟩ | ha
        · omega
        · have := (sweepAux_bounds gap rs (c + 1) r.End a n ha).1; omega
      · intro a n b m ha hb hnm
        simp only [sweepAux, if_neg hj, List.mem_cons, Prod.mk.injEq] at ha hb
        rcases ha with ⟨ha1, ha2⟩ | ha <;> rcases hb with ⟨hb1, hb2⟩ | hb
        · subst ha1; subst hb1; exact Relation.ReflTransGen.refl
        · subst ha1
          exact chainIn_symm
            (ih2 b m hb (by omega) a (List.mem_singleton_self a))
        · subst hb1
          exact ih2 a n ha (by omega) b (List.mem_singleton_self b)
        · exact ih3 a n b m ha hb hnm
      · intro b m hb p hp hov
        exfalso
        have hb2 : b ∈ r :: rs := by
          have h2 := List.mem_map_of_mem Prod.fst hb
          rwa [sweepAux_fst] at h2
        have hbstart : r.Start ≤ b.Start := by
          rcases List.mem_cons.mp hb2 with h | hbin
          · subst h; exact le_refl _
          · exact hsorthead b hbin
        have h3 : b.Start ≤ p.End + gap := hov.2
        have h4 : p.End ≤ runMax := hmaxub p hp
        omega
      · intro a n b m ha hb hov
        simp only [sweepAux, if_neg hj, List.mem_cons, Prod.mk.injEq] at ha hb
        rcases ha with ⟨ha1, ha2⟩ | ha <;> rcases hb with ⟨hb1, hb2⟩ | hb
        · omega
        · subst ha1
          have := ih4 b m hb a (List.mem_singleton_self a) hov
          omega
        · subst hb1
          have := ih4 a n ha b (List.mem_singleton_self b) (rangeOverlap_symm hov)
          omega
        · exact ih5 a n b m ha hb hov

theorem mem_of_mem_sweepGroup {gap : Int} {g : List GtfRecord} {c : Nat}
    {a : GtfRecord} {n : Nat} (h : (a, n) ∈ (sweepGroup gap g c).1) : a ∈ g := by
  have h2 := List.mem_map_of_mem Prod.fst h
  rwa [sweepGroup_fst] at h2

theorem exists_label_sweepGroup (gap : Int) (g : List GtfRecord) (c : Nat)
    {a : GtfRecord} (h : a ∈ g) : ∃ n, (a, n) ∈ (sweepGroup gap g c).1 := by
  rw [← sweepGroup_fst gap g c, List.mem_map] at h
  obtain ⟨⟨a2, n⟩, hmem, hfst⟩ := h
  exact ⟨n, by rwa [show a2 = a from hfst] at hmem⟩

/-- Within one sorted, valid group, equal cluster labels are sound and
complete for chain connectivity. -/
theorem sweepGroup_spec (gap : Int) (hgap : 0 ≤ gap) (g : List GtfRecord)
    (hvalid : ∀ r, r ∈ g → r.Start ≤ r.End)
    (hsorted : List.Pairwise (fun a b => a.Start ≤ b.Start) g) (c : Nat) :
    (∀ a n b m, (a, n) ∈ (sweepGroup gap g c).1 → (b, m) ∈ (sweepGroup gap g c).1 →
      n = m → chainIn gap g a b) ∧
    (∀ a n b m, (a, n) ∈ (sweepGroup gap g c).1 → (b, m) ∈ (sweepGroup gap g c).1 →
      rangeOverlap gap a b → n = m) := by
  cases g with
  | nil =>
    constructor
    · intro a n b m ha; simp [sweepGroup] at ha
    · intro a n b m ha; simp [sweepGroup] at ha
  | cons r rs =>
    obtain ⟨hsorthead, hsorttail⟩ := List.pairwise_cons.mp hsorted
    have hIH := sweepAux_spec gap hgap (r :: rs) rs (c + 1) r.End [r]
      (fun s hs => hvalid s (List.mem_cons_of_mem r hs))
      hsorttail
      (fun p hp s hs => by
        rw [List.mem_singleton] at hp; subst hp; exact hsorthead s hs)
      (fun p hp => by
        rw [List.mem_singleton] at hp; subst hp; exact List.mem_cons_self p rs)
      (fun s hs => List.mem_cons_of_mem r hs)
      ⟨r, List.mem_singleton_self r, rfl⟩
      (fun p hp => by rw [List.mem_singleton] at hp; subst hp; exact le_refl _)
      (fun p hp q hq => by
        rw [List.mem_singleton] at hp hq; subst hp; subst hq
        exact Relation.ReflTransGen.refl)
    obtain ⟨s2, s3, s4, s5⟩ := hIH
    constructor
    · intro a n b m ha hb hnm
      simp only [sweepGroup, List.mem_cons, Prod.mk.injEq] at ha hb
      rcases ha with ⟨ha1, ha2⟩ | ha <;> rcases hb with ⟨hb1, hb2⟩ | hb
      · subst ha1; subst hb1; exact Relation.ReflTransGen.refl
      · subst ha1
        exact chainIn_symm (s2 b m hb (by omega) a (List.mem_singleton_self a))
      · subst hb1
        exact s2 a n ha (by omega) b (List.mem_singleton_self b)
      · exact s3 a n b m ha hb hnm
    · intro a n b m ha hb hov
      simp only [sweepGroup, List.mem_cons, Prod.mk.injEq] at ha hb
      rcases ha with ⟨ha1, ha2⟩ | ha <;> rcases hb with ⟨hb1, hb2⟩ | hb
      · omega
      · subst ha1
        have := s4 b m hb a (List.mem_singleton_self a) hov
        omega
      · subst hb1
        have := s4 a n ha b (List.mem_singleton_self b) (rangeOverlap_symm hov)
        omega
      · exact s5 a n b m ha hb hov

/-- Chain-connected records of a sorted, valid group receive the same
cluster label. -/
theorem sweepGroup_eq_of_conn (gap : Int) (hgap : 0 ≤ gap) (g : List GtfRecord)
    (hvalid : ∀ r, r ∈ g → r.Start ≤ r.End)
    (hsorted : List.Pairwise (fun a b => a.Start ≤ b.Start) g) (c : Nat)
    (a b : GtfRecord) (hconn : chainIn gap g a b) :
    ∀ n m, (a, n) ∈ (sweepGroup gap g c).1 → (b, m) ∈ (sweepGroup gap g c).1 →
      n = m := by
  induction hconn with
  | refl =>
    intro n m ha hb
    have hag : a ∈ g := mem_of_mem_sweepGroup ha
    have hov : rangeOverlap gap a a := by
      have := hvalid a hag
      constructor <;> omega
    exact (sweepGroup_spec gap hgap g hvalid hsorted c).2 a n a m ha hb hov
  | tail h1 h2 ihf =>
    intro n m ha hb
    obtain ⟨k, hk⟩ := exists_label_sweepGroup gap g c h2.1
    exact (ihf n k ha hk).trans
      ((sweepGroup_spec gap hgap g hvalid hsorted c).2 _ k _ m hk hb h2.2.2)

theorem mem_group_of_mem_clusterGroups {gap : Int} {gs : List (List GtfRecord)}
    {c : Nat} {a : GtfRecord} {n : Nat}
    (h : (a, n) ∈ (clusterGroups gap gs c).1) : ∃ g, g ∈ gs ∧ a ∈ g := by
  have h2 := List.mem_map_of_mem Prod.fst h
  rw [clusterGroups_fst] at h2
  rw [List.mem_flatten] at h2
  obtain ⟨g, hg, hag⟩ := h2
  exact ⟨g, hg, hag⟩

/-- Across the whole grouped sweep, two labels agree exactly when the two
records lie in one common group and are chain-connected inside it. -/
theorem clusterGroups_iff (gap : Int) (hgap : 0 ≤ gap) :
    ∀ (gs : List (List GtfRecord)) (c : Nat),
      (∀ g, g ∈ gs → (∀ r, r ∈ g → r.Start ≤ r.End) ∧
        List.Pairwise (fun a b => a.Start ≤ b.Start) g) →
      List.Pairwise (fun g g2 => ∀ x, x ∈ g → x ∉ g2) gs →
      ∀ a n b m, (a, n) ∈ (clusterGroups gap gs c).1 →
        (b, m) ∈ (clusterGroups gap gs c).1 →
        (n = m ↔ ∃ g, g ∈ gs ∧ a ∈ g ∧ b ∈ g ∧ chainIn gap g a b) := by
  intro gs
  induction gs with
  | nil => intro c _ _ a n b m ha; simp [clusterGroups] at ha
  | cons g gs ihg =>
    intro c hprops hdisj a n b m ha hb
    obtain ⟨hdhead, hdtail⟩ := List.pairwise_cons.mp hdisj
    have hgprops := hprops g (List.mem_cons_self g gs)
    simp only [clusterGroups, List.mem_append] at ha hb
    rcases ha with ha | ha <;> rcases hb with hb | hb
    · constructor
      · intro hnm
        exact ⟨g, List.mem_cons_self g gs, mem_of_mem_sweepGroup ha,
          mem_of_mem_sweepGroup hb,
          (sweepGroup_spec gap hgap g hgprops.1 hgprops.2 c).1 a n b m ha hb hnm⟩
      · rintro ⟨g0, hg0, hag0, hbg0, hconn⟩
        rcases List.mem_cons.mp hg0 with h | hg0tail
        · subst h
          exact sweepGroup_eq_of_conn gap hgap _ hgprops.1 hgprops.2 c a b hconn
            n m ha hb
        · exact absurd hag0 (hdhead g0 hg0tail a (mem_of_mem_sweepGroup ha))
    · have hbound_a := sweepGroup_bounds gap g c a n ha
      have hbound_b := clusterGroups_bounds gap gs (sweepGroup gap g c).2 b m hb
      constructor
      · intro hnm; omega
      · rintro ⟨g0, hg0, hag0, hbg0, hconn⟩
        exfalso
        obtain ⟨gb, hgb, hbgb⟩ := mem_group_of_mem_clusterGroups hb
        rcases List.mem_cons.mp hg0 with h | hg0tail
        · subst h; exact hdhead gb hgb b hbg0 hbgb
        · exact hdhead g0 hg0tail a (mem_of_mem_sweepGroup ha) hag0
    · have hbound_a := clusterGroups_bounds gap gs (sweepGroup gap g c).2 a n ha
      have hbound_b := sweepGroup_bounds gap g c b m hb
      constructor
      · intro hnm; omega
      · rintro ⟨g0, hg0, hag0, hbg0, hconn⟩
        exfalso
        obtain ⟨ga, hga, haga⟩ := mem_group_of_mem_clusterGroups ha
        rcases List.mem_cons.mp hg0 with h | hg0tail
        · subst h; exact hdhead ga hga a hag0 haga
        · exact hdhead g0 hg0tail b (mem_of_mem_sweepGroup hb) hbg0
    · have hiff := ihg (sweepGroup gap g c).2
        (fun g2 hg2 => hprops g2 (List.mem_cons_of_mem g hg2)) hdtail a n b m ha hb
      rw [hiff]
      constructor
      · rintro ⟨g0, hg0, rest⟩
        exact ⟨g0, List.mem_cons_of_mem g hg0, rest⟩
      · rintro ⟨g0, hg0, hag0, hbg0, hconn⟩
        rcases List.mem_cons.mp hg0 with h | hg0tail
        · exfalso
          subst h
          obtain ⟨ga, hga, haga⟩ := mem_group_of_mem_clusterGroups ha
          exact hdhead ga hga a hag0 haga
        · exact ⟨g0, hg0tail, hag0, hbg0, hconn⟩

theorem mem_firstSeen {α : Type} [DecidableEq α] :
    ∀ (l : List α) (x : α), x ∈ firstSeen l ↔ x ∈ l := by
  intro l
  induction l with
  | nil => intro x; simp [firstSeen]
  | cons y ys ih =>
    intro x
    simp only [firstSeen, List.mem_cons, List.mem_filter, decide_eq_true_eq]
    constructor
    · rintro (rfl | ⟨hx, _⟩)
      · exact Or.inl rfl
      · exact Or.inr ((ih x).mp hx)
    · rintro (rfl | hx)
      · exact Or.inl rfl
      · by_cases hxy : x = y
        · exact Or.inl hxy
        · exact Or.inr ⟨(ih x).mpr hx, hxy⟩

theorem nodup_firstSeen {α : Type} [DecidableEq α] :
    ∀ (l : List α), (firstSeen l).Nodup := by
  intro l
  induction l with
  | nil => simp [firstSeen]
  | cons y ys ih =>
    rw [firstSeen, List.nodup_cons]
    constructor
    · intro hmem
      have h2 := (List.mem_filter.mp hmem).2
      simp at h2
    · exact List.Nodup.filter _ ih

theorem mem_mkGroup (cfg : ClusterConfig) (recs : List GtfRecord)
    (k : String × String) (x : GtfRecord) :
    x ∈ mkGroup cfg recs k ↔ x ∈ recs ∧ groupKey cfg x = k := by
  unfold mkGroup
  rw [(List.perm_insertionSort lexLE _).mem_iff, List.mem_filter]
  simp

theorem mkGroup_sorted (cfg : ClusterConfig) (recs : List GtfRecord)
    (k : String × String) :
    List.Pairwise (fun a b => a.Start ≤ b.Start) (mkGroup cfg recs k) := by
  have h := List.sorted_insertionSort lexLE
    (recs.filter (fun r => decide (groupKey cfg r = k)))
  exact List.Pairwise.imp (fun hab => by unfold lexLE at hab; omega) h

theorem groupsOf_props (cfg : ClusterConfig) (recs : List GtfRecord)
    (hvalid : ∀ r, r ∈ recs → r.Start ≤ r.End) :
    ∀ g, g ∈ groupsOf cfg recs → (∀ r, r ∈ g → r.Start ≤ r.End) ∧
      List.Pairwise (fun a b => a.Start ≤ b.Start) g := by
  intro g hg
  rw [groupsOf, List.mem_map] at hg
  obtain ⟨k, hk, rfl⟩ := hg
  exact ⟨fun r hr => hvalid r ((mem_mkGroup cfg recs k r).mp hr).1,
    mkGroup_sorted cfg recs k⟩

theorem groupsOf_disjoint (cfg : ClusterConfig) (recs : List GtfRecord) :
    List.Pairwise (fun g g2 => ∀ x, x ∈ g → x ∉ g2) (groupsOf cfg recs) := by
  unfold groupsOf
  rw [List.pairwise_map]
  have hnd := nodup_firstSeen (recs.map (groupKey cfg))
  refine List.Pairwise.imp ?_ hnd
  intro k1 k2 hk x hx1 hx2
  have h1 := ((mem_mkGroup cfg recs k1 x).mp hx1).2
  have h2 := ((mem_mkGroup cfg recs k2 x).mp hx2).2
  exact hk (h1.symm.trans h2)

theorem chainIn_mkGroup_overlapChain (cfg : ClusterConfig)
    (recs : List GtfRecord) (k : String × String) (a b : GtfRecord)
    (h : chainIn (cfg.gap_tolerance : Int) (mkGroup cfg recs k) a b) :
    overlapChain cfg recs a b := by
  refine Relation.ReflTransGen.mono ?_ h
  intro x y hxy
  obtain ⟨hx, hy, ho⟩ := hxy
  have hx2 := (mem_mkGroup cfg recs k x).mp hx
  have hy2 := (mem_mkGroup cfg recs k y).mp hy
  exact ⟨hx2.1, hy2.1, hx2.2.trans hy2.2.symm, ho⟩

theorem overlapChain_mkGroup (cfg : ClusterConfig) (recs : List GtfRecord)
    (a b : GtfRecord) (h : overlapChain cfg recs a b) :
    groupKey cfg b = groupKey cfg a ∧
      chainIn (cfg.gap_tolerance : Int) (mkGroup cfg recs (groupKey cfg a)) a b := by
  induction h with
  | refl => exact ⟨rfl, Relation.ReflTransGen.refl⟩
  | tail h1 h2 ih =>
    obtain ⟨hx, hy, hkeyov⟩ := h2
    obtain ⟨hkey, hov⟩ := hkeyov
    refine ⟨hkey.symm.trans ih.1, Relation.ReflTransGen.tail ih.2 ?_⟩
    exact ⟨(mem_mkGroup _ _ _ _).mpr ⟨hx, ih.1⟩,
      (mem_mkGroup _ _ _ _).mpr ⟨hy, hkey.symm.trans ih.1⟩, hov⟩

theorem mem_recs_of_mem_clusterRanges (cfg : ClusterConfig)
    (recs : List GtfRecord) (a : GtfRecord) (n : Nat)
    (h : (a, n) ∈ clusterRanges cfg recs) : a ∈ recs := by
  unfold clusterRanges at h
  obtain ⟨g, hg, hag⟩ := mem_group_of_mem_clusterGroups h
  rw [groupsOf, List.mem_map] at hg
  obtain ⟨k, hk, rfl⟩ := hg
  exact ((mem_mkGroup cfg recs k a).mp hag).1

theorem mem_clusterRanges_of_mem (cfg : ClusterConfig) (recs : List GtfRecord)
    (r : GtfRecord) (h : r ∈ recs) :
    r ∈ (clusterRanges cfg recs).map Prod.fst := by
  unfold clusterRanges
  rw [clusterGroups_fst, List.mem_flatten]
  refine ⟨mkGroup cfg recs (groupKey cfg r), ?_, ?_⟩
  · rw [groupsOf, List.mem_map]
    exact ⟨groupKey cfg r,
      (mem_firstSeen _ _).mpr (List.mem_map_of_mem (groupKey cfg) h), rfl⟩
  · exact (mem_mkGroup cfg recs _ r).mpr ⟨h, rfl⟩

/-- C1: in a clustered collection of well-formed intervals, two records
carry the same cluster number exactly when they share the grouping key —
the chromosome, plus the strand when strand-awareness is on — and are
connected by a chain of pairwise overlapping-or-touching intervals of the
collection (transitive closure of overlap under the gap tolerance); in
particular records with different keys never share a cluster number. -/
theorem cluster_same_iff_connected (cfg : ClusterConfig) (recs : List GtfRecord)
    (hvalid : ∀ r, r ∈ recs → r.Start ≤ r.End) (a : GtfRecord) (n : Nat)
    (b : GtfRecord) (m : Nat) (ha : (a, n) ∈ clusterRanges cfg recs)
    (hb : (b, m) ∈ clusterRanges cfg recs) :
    n = m ↔ (groupKey cfg a = groupKey cfg b ∧ overlapChain cfg recs a b) := by
  have hgap : (0 : Int) ≤ (cfg.gap_tolerance : Int) := Int.natCast_nonneg _
  have hain : a ∈ recs := mem_recs_of_mem_clusterRanges cfg recs a n ha
  have hbin : b ∈ recs := mem_recs_of_mem_clusterRanges cfg recs b m hb
  unfold clusterRanges at ha hb
  have hiff := clusterGroups_iff (cfg.gap_tolerance : Int) hgap
    (groupsOf cfg recs) 0 (groupsOf_props cfg recs hvalid)
    (groupsOf_disjoint cfg recs) a n b m ha hb
  rw [hiff]
  constructor
  · rintro ⟨g, hg, hag, hbg, hconn⟩
    rw [groupsOf, List.mem_map] at hg
    obtain ⟨k, hk, rfl⟩ := hg
    have hka := ((mem_mkGroup cfg recs k a).mp hag).2
    have hkb := ((mem_mkGroup cfg recs k b).mp hbg).2
    exact ⟨hka.trans hkb.symm, chainIn_mkGroup_overlapChain cfg recs k a b hconn⟩
  · rintro ⟨hkey, hconn⟩
    obtain ⟨hkb, hchain⟩ := overlapChain_mkGroup cfg recs a b hconn
    refine ⟨mkGroup cfg recs (groupKey cfg a), ?_, ?_, ?_, hchain⟩
    · rw [groupsOf, List.mem_map]
      exact ⟨groupKey cfg a,
        (mem_firstSeen _ _).mpr (List.mem_map_of_mem (groupKey cfg) hain), rfl⟩
    · exact (mem_mkGroup _ _ _ _).mpr ⟨hain, rfl⟩
    · exact (mem_mkGroup _ _ _ _).mpr ⟨hbin, hkb⟩

/-- Witness for C1: at the clustered pair chr1:100-200 and chr1:150-300,
both labelled 1, the equivalence yields the key equality and the overlap
chain. -/
theorem cluster_same_iff_connected_witness :
    groupKey ⟨false, 0⟩ recA = groupKey ⟨false, 0⟩ recB ∧
      overlapChain ⟨false, 0⟩ [recA, recB] recA recB :=
  (cluster_same_iff_connected ⟨false, 0⟩ [recA, recB] (by decide)
    recA 1 recB 1 (by decide) (by decide)).mp rfl

/-- C7 amended: neither the pipeline nor the clusterer performs any
start/end validation — every record reaching the cluster stage, malformed
(Start greater than End) or not, is emitted with a cluster number; the
clusterer is a total function and never rejects its input. -/
theorem cluster_emits_every_record (cfg : ClusterConfig) (recs : List GtfRecord)
    (r : GtfRecord) (h : r ∈ recs) :
    r ∈ (clusterRanges cfg recs).map Prod.fst :=
  mem_clusterRanges_of_mem cfg recs r h

/-- Witness for the amended C7 at a malformed record. -/
theorem cluster_emits_every_record_witness :
    recBad ∈ (clusterRanges ⟨false, 0⟩ [recBad]).map Prod.fst :=
  cluster_emits_every_record ⟨false, 0⟩ [recBad] recBad (by decide)

/-- C8 amended: the clustering options are forwarded to and used by the
cluster stage — different caller-supplied gap tolerances or strand flags
yield different clusterings — but the feature-type filter value is the
hardcoded literal 'transcript' of line 82: every record of any successful
output carries that feature, and no caller option reaches the filter. -/
theorem cluster_options_used_feature_hardcoded :
    (∀ fs read_gtf cfg xs out,
      create_comparison_windows fs read_gtf (PyVal.pyList xs) cfg =
        Except.ok out →
      ∀ p, p ∈ out → (Prod.fst p).Feature = "transcript") ∧
    clusterRanges ⟨false, 0⟩ demoGap ≠ clusterRanges ⟨false, 100⟩ demoGap ∧
    clusterRanges ⟨false, 0⟩ demoStrand ≠ clusterRanges ⟨true, 0⟩ demoStrand := by
  refine ⟨?_, by decide, by decide⟩
  intro fs read_gtf cfg xs out h p hp
  simp only [create_comparison_windows] at h
  split at h
  · simp at h
  · split at h
    · simp at h
    · split at h
      · simp at h
      · simp only [Except.ok.injEq] at h
        subst h
        obtain ⟨a, n⟩ := p
        have hmem := mem_recs_of_mem_clusterRanges cfg _ a n hp
        have h3 := (List.mem_filter.mp hmem).2
        simpa using h3

/-- Witness for the amended C8 at the concrete mixed input. -/
theorem cluster_options_used_feature_hardcoded_witness :
    (Prod.fst (recTTagged, 1)).Feature = "transcript" :=
  cluster_options_used_feature_hardcoded.1 fsAll parseMixed ⟨false, 0⟩ ["g.gtf"]
    [(recTTagged, 1)] rfl (recTTagged, 1) (List.mem_singleton_self _)

theorem sweepAux_getLast (gap : Int) :
    ∀ (rs : List GtfRecord) (c : Nat) (runMax : Int),
      (c :: (sweepAux gap rs c runMax).1.map Prod.snd).getLast? =
        some (sweepAux gap rs c runMax).2 := by
  intro rs
  induction rs with
  | nil => intro c runMax; simp [sweepAux]
  | cons r rs ih =>
    intro c runMax
    by_cases hj : r.Start ≤ runMax + gap
    · simp only [sweepAux, if_pos hj, List.map_cons]
      rw [List.getLast?_cons_cons]
      exact ih c (max runMax r.End)
    · simp only [sweepAux, if_neg hj, List.map_cons]
      rw [List.getLast?_cons_cons]
      exact ih (c + 1) r.End

theorem destutter_cons_cons_eq {α : Type} (R : α → α → Prop) [DecidableRel R]
    (a b : α) (l : List α) :
    (a :: b :: l).destutter R =
      if R a b then a :: (b :: l).destutter R else (a :: l).destutter R :=
  rfl

theorem destutter_cons_head {α : Type} (R : α → α → Prop) [DecidableRel R] :
    ∀ (l : List α) (a : α), ∃ t, (a :: l).destutter R = a :: t := by
  intro l
  induction l with
  | nil => intro a; exact ⟨[], by simp⟩
  | cons b l ih =>
    intro a
    rw [destutter_cons_cons_eq]
    by_cases h : R a b
    · rw [if_pos h]
      exact ⟨(b :: l).destutter R, rfl⟩
    · rw [if_neg h]
      exact ih a

theorem destutter_ne_append :
    ∀ (l1 : List Nat) (x a : Nat) (l2 : List Nat),
      (x :: l1).getLast? = some a →
      ((x :: l1) ++ l2).destutter (fun u v => u ≠ v) =
        (x :: l1).destutter (fun u v => u ≠ v) ++
          ((a :: l2).destutter (fun u v => u ≠ v)).tail := by
  intro l1
  induction l1 with
  | nil =>
    intro x a l2 h
    have hxa : x = a := by
      rw [List.getLast?_singleton] at h
      exact Option.some.inj h
    subst hxa
    obtain ⟨t, ht⟩ := destutter_cons_head (fun u v : Nat => u ≠ v) l2 x
    rw [List.singleton_append, ht, List.destutter_singleton]
    simp
  | cons y l1 ih =>
    intro x a l2 h
    have hlast : (y :: l1).getLast? = some a := by
      rw [List.getLast?_cons_cons] at h
      exact h
    by_cases hxy : x ≠ y
    · have hih := ih y a l2 hlast
      simp only [List.cons_append] at hih ⊢
      rw [destutter_cons_cons_eq, if_pos hxy, hih,
        destutter_cons_cons_eq, if_pos hxy, List.cons_append]
    · push_neg at hxy
      subst hxy
      have hih := ih x a l2 hlast
      simp only [List.cons_append] at hih ⊢
      rw [destutter_cons_cons_eq, if_neg (fun hc => hc rfl), hih,
        destutter_cons_cons_eq, if_neg (fun hc => hc rfl)]

theorem getLast?_cons_append {α : Type} :
    ∀ (l1 l2 : List α) (x a b : α),
      (x :: l1).getLast? = some a → (a :: l2).getLast? = some b →
      ((x :: l1) ++ l2).getLast? = some b := by
  intro l1 l2 x a b h1 h2
  cases l2 with
  | nil =>
    rw [List.append_nil]
    rw [List.getLast?_singleton] at h2
    rw [h1]
    exact congrArg some (Option.some.inj h2)
  | cons y l2 =>
    rw [List.getLast?_append]
    rw [List.getLast?_cons_cons] at h2
    rw [h2]
    rfl

theorem sweepAux_destutter (gap : Int) :
    ∀ (rs : List GtfRecord) (c : Nat) (runMax : Int),
      (c :: (sweepAux gap rs c runMax).1.map Prod.snd).destutter
          (fun u v => u ≠ v) =
        List.range' c ((sweepAux gap rs c runMax).2 + 1 - c) := by
  intro rs
  induction rs with
  | nil =>
    intro c runMax
    have h1 : c + 1 - c = 1 := by omega
    simp only [sweepAux, List.map_nil]
    rw [List.destutter_singleton, h1]
    rfl
  | cons r rs ih =>
    intro c runMax
    by_cases hj : r.Start ≤ runMax + gap
    · simp only [sweepAux, if_pos hj, List.map_cons]
      rw [destutter_cons_cons_eq, if_neg (fun hc => hc rfl)]
      exact ih c (max runMax r.End)
    · simp only [sweepAux, if_neg hj, List.map_cons]
      rw [destutter_cons_cons_eq, if_pos (by omega : c ≠ c + 1)]
      rw [ih (c + 1) r.End]
      have hmono := sweepAux_counter_mono gap rs (c + 1) r.End
      rw [show (sweepAux gap rs (c + 1) r.End).2 + 1 - c =
        ((sweepAux gap rs (c + 1) r.End).2 + 1 - (c + 1)) + 1 by omega]
      rw [List.range'_succ]

theorem sweepGroup_destutter (gap : Int) (g : List GtfRecord) (c : Nat) :
    (c :: (sweepGroup gap g c).1.map Prod.snd).destutter (fun u v => u ≠ v) =
      List.range' c ((sweepGroup gap g c).2 + 1 - c) ∧
    (c :: (sweepGroup gap g c).1.map Prod.snd).getLast? =
      some (sweepGroup gap g c).2 := by
  cases g with
  | nil =>
    constructor
    · have h1 : c + 1 - c = 1 := by omega
      simp only [sweepGroup, List.map_nil]
      rw [List.destutter_singleton, h1]
      rfl
    · simp [sweepGroup]
  | cons r rs =>
    constructor
    · simp only [sweepGroup, List.map_cons]
      rw [destutter_cons_cons_eq, if_pos (by omega : c ≠ c + 1)]
      rw [sweepAux_destutter gap rs (c + 1) r.End]
      have hmono := sweepAux_counter_mono gap rs (c + 1) r.End
      rw [show (sweepAux gap rs (c + 1) r.End).2 + 1 - c =
        ((sweepAux gap rs (c + 1) r.End).2 + 1 - (c + 1)) + 1 by omega]
      rw [List.range'_succ]
    · simp only [sweepGroup, List.map_cons]
      rw [List.getLast?_cons_cons]
      exact sweepAux_getLast gap rs (c + 1) r.End

theorem clusterGroups_destutter (gap : Int) :
    ∀ (gs : List (List GtfRecord)) (c : Nat),
      (c :: (clusterGroups gap gs c).1.map Prod.snd).destutter
          (fun u v => u ≠ v) =
        List.range' c ((clusterGroups gap gs c).2 + 1 - c) ∧
      (c :: (clusterGroups gap gs c).1.map Prod.snd).getLast? =
        some (clusterGroups gap gs c).2 := by
  intro gs
  induction gs with
  | nil =>
    intro c
    constructor
    · have h1 : c + 1 - c = 1 := by omega
      simp only [clusterGroups, List.map_nil]
      rw [List.destutter_singleton, h1]
      rfl
    · simp [clusterGroups]
  | cons g gs ih =>
    intro c
    have hg := sweepGroup_destutter gap g c
    have hr := ih (sweepGroup gap g c).2
    have h1 := sweepGroup_counter_mono gap g c
    have h2 := clusterGroups_counter_mono gap gs (sweepGroup gap g c).2
    constructor
    · simp only [clusterGroups, List.map_append]
      rw [show (c :: ((sweepGroup gap g c).1.map Prod.snd ++
          (clusterGroups gap gs (sweepGroup gap g c).2).1.map Prod.snd)) =
        ((c :: (sweepGroup gap g c).1.map Prod.snd) ++
          (clusterGroups gap gs (sweepGroup gap g c).2).1.map Prod.snd) from rfl]
      rw [destutter_ne_append _ _ _ _ hg.2, hg.1, hr.1]
      rw [show (clusterGroups gap gs (sweepGroup gap g c).2).2 + 1 -
          (sweepGroup gap g c).2 =
        ((clusterGroups gap gs (sweepGroup gap g c).2).2 -
          (sweepGroup gap g c).2) + 1 by omega]
      rw [List.range'_succ, List.tail_cons]
      have happ := List.range'_append_1 c ((sweepGroup gap g c).2 + 1 - c)
        ((clusterGroups gap gs (sweepGroup gap g c).2).2 - (sweepGroup gap g c).2)
      rw [show c + ((sweepGroup gap g c).2 + 1 - c) =
        (sweepGroup gap g c).2 + 1 by omega] at happ
      rw [happ]
      congr 1
      omega
    · simp only [clusterGroups, List.map_append]
      rw [show (c :: ((sweepGroup gap g c).1.map Prod.snd ++
          (clusterGroups gap gs (sweepGroup gap g c).2).1.map Prod.snd)) =
        ((c :: (sweepGroup gap g c).1.map Prod.snd) ++
          (clusterGroups gap gs (sweepGroup gap g c).2).1.map Prod.snd) from rfl]
      exact getLast?_cons_append _ _ _ _ _ hg.2 hr.2

/-- C2: listed in sweep-visitation order with each cluster's block of
repeats collapsed, the cluster numbers of every clustered output are
exactly 1, 2, ..., N: globally unique, strictly increasing positive
integers with no gaps, starting at 1 (the documented convention of the
model, numbering continuing across groups). -/
theorem cluster_numbering_contiguous (cfg : ClusterConfig)
    (recs : List GtfRecord) :
    ∃ N, ((clusterRanges cfg recs).map Prod.snd).destutter (fun u v => u ≠ v) =
      List.range' 1 N := by
  refine ⟨(clusterGroups (cfg.gap_tolerance : Int) (groupsOf cfg recs) 0).2, ?_⟩
  have h := clusterGroups_destutter (cfg.gap_tolerance : Int)
    (groupsOf cfg recs) 0
  have h0 : ((0 : Nat) :: (clusterGroups (cfg.gap_tolerance : Int)
      (groupsOf cfg recs) 0).1.map Prod.snd).destutter (fun u v => u ≠ v) =
      List.range' 0
        ((clusterGroups (cfg.gap_tolerance : Int) (groupsOf cfg recs) 0).2 + 1) := by
    have h1 := h.1
    rwa [Nat.sub_zero] at h1
  unfold clusterRanges
  cases hl : (clusterGroups (cfg.gap_tolerance : Int)
      (groupsOf cfg recs) 0).1.map Prod.snd with
  | nil =>
    rw [hl, List.destutter_singleton, List.range'_succ] at h0
    rw [List.destutter_nil]
    exact (List.cons.inj h0).2
  | cons x rest =>
    have hx : 0 < x := by
      have hxmem : x ∈ (clusterGroups (cfg.gap_tolerance : Int)
          (groupsOf cfg recs) 0).1.map Prod.snd := by
        rw [hl]; exact List.mem_cons_self x rest
      rw [List.mem_map] at hxmem
      obtain ⟨⟨a, n⟩, hmem, hsnd⟩ := hxmem
      have hb := clusterGroups_bounds (cfg.gap_tolerance : Int)
        (groupsOf cfg recs) 0 a n hmem
      omega
    rw [hl, destutter_cons_cons_eq, if_pos (by omega : (0 : Nat) ≠ x),
      List.range'_succ] at h0
    exact (List.cons.inj h0).2
